import Mathlib

/-!
Shallow embedding of the VoteSecure lockscript deployment pipeline
(src/PythonSetup/VoteSecure_create_lockscript_cell.py) and proofs about it.

The development models, faithfully to the Python source:
  * `calculate_required_capacity` including its IEEE-754 binary64 (double)
    arithmetic, via an exact rational model of round-to-nearest-even;
  * `collect_inputs`, `build_deployment_transaction`,
    `create_always_success_lock` (transaction assembly);
  * `calculate_transaction_hash` (JSON serialization with sorted keys,
    then a domain-separated 32-byte digest);
  * `sign_transaction` / `serialize_witness` (witness packaging);
  * `wait_for_confirmation` (fixed-interval confirmation polling).
-/

set_option maxRecDepth 8000
set_option exponentiation.threshold 700

/-! ## Exact model of IEEE-754 binary64 arithmetic

Python floats are IEEE-754 binary64 values and every arithmetic operation
rounds its exact rational result to the nearest representable value, ties to
even.  `fl` below is that rounding function, restricted to the normal range
(the values occurring in `calculate_required_capacity` are all normal; float
overflow, reachable only for payloads of more than about 1.8e316 bytes, is
outside the model's scope).  A binary64 value is `m * 2 ^ (e - 52)` with a
53-bit significand `m`, so rounding a positive rational `q` means finding the
binade exponent `e = floor(log2 q)` and rounding `q * 2 ^ (52 - e)` to the
nearest integer, ties to even. -/

/-- Fuel-driven floor of the base-2 logarithm: `log2fuel f n` is `⌊log₂ n⌋`
whenever `1 ≤ n < 2 ^ f`.  Structural recursion on the fuel keeps it
kernel-computable. -/
def log2fuel : ℕ → ℕ → ℕ
  | 0, _ => 0
  | f + 1, n => if 2 ≤ n then log2fuel f (n / 2) + 1 else 0

/-- Floor of the base-2 logarithm of a natural number (`⌊log₂ n⌋` for `n ≥ 1`),
total because `n < 2 ^ n`. -/
def natLog2 (n : ℕ) : ℕ := log2fuel n n

/-- Round a rational to the nearest integer, ties to even: the rounding used at
the significand of every IEEE-754 operation. -/
def roundHalfEven (x : ℚ) : ℤ :=
  let n0 : ℤ := ⌊x⌋
  let r : ℚ := x - (n0 : ℚ)
  if 1 / 2 < r then n0 + 1 else if r < 1 / 2 then n0 else if n0 % 2 = 0 then n0 else n0 + 1

/-- Binade exponent `⌊log₂ a⌋` of a positive rational, computed through a
`2 ^ 300` scaling so that every value of interest becomes a natural number
(valid for `a ≥ 2 ^ (-300)`, far below every value the deployer computes). -/
def flExp (a : ℚ) : ℤ := (natLog2 ⌊a * 2 ^ (300 : ℕ)⌋₊ : ℤ) - 300

/-- Exact model of IEEE-754 binary64 rounding (round to nearest, ties to even)
on the normal range: the value a Python float arithmetic operation actually
produces from the exact rational result `q`. -/
def fl (q : ℚ) : ℚ :=
  if q = 0 then 0
  else
    let a : ℚ := |q|
    let e : ℤ := flExp a
    let m : ℤ := roundHalfEven (a * 2 ^ ((52 : ℤ) - e))
    (if q < 0 then -1 else 1) * (m : ℚ) * 2 ^ (e - (52 : ℤ))

/-- Model of `VoteSecureDeployer.calculate_required_capacity` (source lines
308-330) for a payload of `n` bytes.  The Python code computes, in binary64
floating point, `binary_size_ckb = n / 100_000_000`, then
`required_ckb = 61 + binary_size_ckb + 10` (left associated, so two separate
additions), then `int(required_ckb * 100_000_000)`; `int` truncates toward
zero (equal to the floor here since the value is nonnegative).  Every float
operation is modelled exactly by `fl`. -/
def calculate_required_capacity (n : ℕ) : ℤ :=
  ⌊fl (fl (fl ((61 : ℚ) + fl ((n : ℚ) / 100000000)) + 10) * 100000000)⌋

/-- What the spec's capacity formula prescribes (spec section 4.2): the exact
integer arithmetic `(61 + 10) * 10^8 + n` minor units, with no floating-point
drift.  Used to compare the source's float computation against the spec. -/
def requiredCapacitySpec (n : ℕ) : ℤ := (61 + 10) * 100000000 + (n : ℤ)

/-! ## Transaction data model

The Python code assembles transactions as JSON-style dictionaries.  Each
dictionary shape is modelled as a structure with the same field names; numeric
capacities are stored in the dictionaries as Python `hex(...)` strings, and are
modelled here as the underlying integers (the hex image is reconstructed by
`pyHex` when the transaction is serialized for hashing). -/

/-- A CKB script: the `(code_hash, hash_type, args)` dictionaries built by the
source. -/
structure Script where
  code_hash : String
  hash_type : String
  args : String
deriving DecidableEq, Inhabited

/-- An out-point reference `(tx_hash, index)`. -/
structure OutPoint where
  tx_hash : String
  index : String
deriving DecidableEq, Inhabited

/-- A transaction input: `(previous_output, since)`. -/
structure CellInput where
  previous_output : OutPoint
  since : String
deriving DecidableEq, Inhabited

/-- A transaction output: `(capacity, lock, type)`; the source stores
`hex(capacity)`, modelled as the integer value. -/
structure CellOutput where
  capacity : ℤ
  lock : Script
  type : Option Script
deriving DecidableEq, Inhabited

/-- A cell dependency `(out_point, dep_type)`. -/
structure CellDep where
  out_point : OutPoint
  dep_type : String
deriving DecidableEq, Inhabited

/-- The transaction dictionary built at source lines 484-506, with its seven
keys. -/
structure Transaction where
  version : String
  cell_deps : List CellDep
  header_deps : List String
  inputs : List CellInput
  outputs : List CellOutput
  outputs_data : List String
  witnesses : List String
deriving DecidableEq, Inhabited

/-- Model of `VoteSecureDeployer.create_always_success_lock` (source lines
332-342). -/
def create_always_success_lock : Script :=
  { code_hash := "0x0000000000000000000000000000000000000000000000000000000000000000"
    hash_type := "data"
    args := "0x" }

/-- The placeholder input returned by `collect_inputs` (source lines 428-434):
all-zero transaction hash, index 0, since 0. -/
def placeholder_input : CellInput :=
  { previous_output :=
      { tx_hash := "0x0000000000000000000000000000000000000000000000000000000000000000"
        index := "0x0" }
    since := "0x0" }

/-- The fixed SECP256K1/Blake160 lock script returned by `collect_inputs`
(source lines 436-440), with all-zero 20-byte args (`"0x" + "00" * 20`). -/
def collect_lock_script : Script :=
  { code_hash := "0x9bd7e06f3ecf4be0f2fcd2188b23f1b9fcc88e5d4b65a8637b17723bbda3cce8"
    hash_type := "type"
    args := "0x0000000000000000000000000000000000000000" }

/-- Model of `VoteSecureDeployer.collect_inputs` (source lines 404-451): the
source's input collection is a stub that ignores the address, returns the single
placeholder input, an input capacity of `required_capacity + 200000000`
shannons (`+2 CKB for change and fee`) and the fixed SECP lock script. -/
def collect_inputs (address : String) (required_capacity : ℤ) :
    List CellInput × ℤ × Script :=
  ([placeholder_input], required_capacity + 200000000, collect_lock_script)

/-- Lowercase hexadecimal digit for a value below 16. -/
def hexDigitChar (d : ℕ) : Char :=
  if d < 10 then Char.ofNat (48 + d) else Char.ofNat (87 + d)

/-- The two lowercase hex characters of one byte, as produced per byte by
Python's `bytes.hex()`. -/
def byteHexChars (b : ℕ) : List Char :=
  [hexDigitChar (b / 16 % 16), hexDigitChar (b % 16)]

/-- Model of Python's `bytes.hex()`: two lowercase hex digits per byte. -/
def bytesToHex (bs : List ℕ) : String :=
  String.mk (bs.flatMap byteHexChars)

/-- Hex digits of a positive natural, most significant first (fuel-driven,
fuel `n` suffices). -/
def natHexAux : ℕ → ℕ → List Char
  | 0, _ => []
  | f + 1, n => if n = 0 then [] else natHexAux f (n / 16) ++ [hexDigitChar (n % 16)]

/-- Model of Python's `hex()` on integers: `0x...` lowercase, `-0x...` for
negatives, `0x0` for zero.  Used when the builder stores `hex(capacity)` in the
transaction dictionary. -/
def pyHex (n : ℤ) : String :=
  if n < 0 then "-0x" ++ String.mk (natHexAux n.natAbs n.natAbs)
  else if n = 0 then "0x0"
  else "0x" ++ String.mk (natHexAux n.natAbs n.natAbs)

/-- The body of `VoteSecureDeployer.build_deployment_transaction` (source lines
462-506) after input collection, parameterized exactly by the spec's
TransactionBuilder contract (spec section 4.3): payload, required capacity, the
collected inputs with their total capacity and controlling lock, and the fee.
The source fixes `fee = 1000` at line 473 and obtains the other arguments from
`collect_inputs`; `build_deployment_transaction` below composes the two. -/
def build_with_inputs (binary : List ℕ) (required_capacity : ℤ)
    (inputs : List CellInput) (input_capacity : ℤ) (deployer_lock : Script)
    (fee : ℤ) : Transaction :=
  let lockscript_output : CellOutput :=
    { capacity := required_capacity
      lock := create_always_success_lock
      type := none }
  let binary_hex : String := "0x" ++ bytesToHex binary
  let change_capacity : ℤ := input_capacity - required_capacity - fee
  let change_output : CellOutput :=
    { capacity := change_capacity
      lock := deployer_lock
      type := none }
  { version := "0x0"
    cell_deps :=
      [ { out_point :=
            { tx_hash := "0x71a7ba8fc96349fea0ed3a5c47992e3b4084b031a42264a018e0072e8172e46c"
              index := "0x0" }
          dep_type := "dep_group" } ]
    header_deps := []
    inputs := inputs
    outputs := [lockscript_output, change_output]
    outputs_data := [binary_hex, "0x"]
    witnesses := [] }

/-- Model of `VoteSecureDeployer.build_deployment_transaction` (source lines
453-514): collect inputs for the deployer's address, then assemble the
transaction with the fixed fee of 1000 shannons.  The deployer address comes
from the wallet configuration and is passed explicitly here. -/
def build_deployment_transaction (address : String) (binary : List ℕ)
    (required_capacity : ℤ) : Transaction :=
  match collect_inputs address required_capacity with
  | (inputs, input_capacity, deployer_lock) =>
      build_with_inputs binary required_capacity inputs input_capacity deployer_lock 1000

/-! ## JSON serialization and transaction hashing

`calculate_transaction_hash` (source lines 547-555) hashes
`json.dumps(transaction, sort_keys=True)`.  JSON values are modelled by the
mutual inductives below (`null`, strings, arrays, objects); `dumps` serializes
with Python's default separators `", "` and `": "` and, because of
`sort_keys=True`, emits every object's fields ordered by key.  String escaping
is not modelled: every string this pipeline serializes is plain ASCII
(hex strings, identifiers) containing no character that `json.dumps` would
escape. -/

mutual

/-- A JSON value as built by the Python code (only the shapes that occur:
null, strings, arrays, objects). -/
inductive JVal : Type where
  | jnull : JVal
  | jstr : String → JVal
  | jarr : JArr → JVal
  | jobj : JObj → JVal

/-- A JSON array (kept as a separate inductive so that serialization is
plain mutual structural recursion). -/
inductive JArr : Type where
  | anil : JArr
  | acons : JVal → JArr → JArr

/-- A JSON object: an insertion-ordered list of key-value fields, exactly like
a Python dict. -/
inductive JObj : Type where
  | onil : JObj
  | ocons : String → JVal → JObj → JObj

end

/-- Build a `JArr` from a list of values. -/
def JArr.ofList : List JVal → JArr
  | [] => .anil
  | v :: t => .acons v (JArr.ofList t)

/-- Build a `JObj` from an insertion-ordered list of fields. -/
def JObj.ofList : List (String × JVal) → JObj
  | [] => .onil
  | (k, v) :: t => .ocons k v (JObj.ofList t)

/-- JSON string quoting (escaping omitted; see the section comment). -/
def jquote (s : String) : String := "\"" ++ s ++ "\""

/-- Lexicographic comparison of character sequences by code point: Python's
`str` ordering, which `sort_keys=True` applies to the keys. -/
def charListLe : List Char → List Char → Bool
  | [], _ => true
  | _ :: _, [] => false
  | c :: cs, d :: ds =>
      if c.toNat < d.toNat then true
      else if d.toNat < c.toNat then false
      else charListLe cs ds

/-- Python's `str` ordering on whole strings. -/
def keyLe (a b : String) : Bool := charListLe a.data b.data

/-- Sort serialized object fields by key, as `sort_keys=True` does. -/
def sortPairs (l : List (String × String)) : List (String × String) :=
  List.insertionSort (fun a b => keyLe a.1 b.1 = true) l

mutual

/-- Model of `json.dumps(v, sort_keys=True)` with Python's default separators:
objects emit their fields sorted by key. -/
def dumps : JVal → String
  | .jnull => "null"
  | .jstr s => jquote s
  | .jarr xs => "[" ++ String.intercalate ", " (dumpsArr xs) ++ "]"
  | .jobj fs =>
      "\x7b" ++
        String.intercalate ", "
          ((sortPairs (dumpsObj fs)).map (fun q => jquote q.1 ++ ": " ++ q.2)) ++
        "\x7d"

/-- Serialize every element of a JSON array. -/
def dumpsArr : JArr → List String
  | .anil => []
  | .acons v t => dumps v :: dumpsArr t

/-- Serialize every field value of a JSON object, keeping insertion order and
pairing each with its key (sorting by key happens afterwards, which commutes
with value serialization). -/
def dumpsObj : JObj → List (String × String)
  | .onil => []
  | .ocons k v t => (k, dumps v) :: dumpsObj t

end

/-- Model of the external `hashlib.blake2b(digest_size=32,
person=b'ckb-default-hash')` one-shot digest (the `hashlib` library is not part
of this repository).  The claims use only that it is a fixed total function of
the input byte sequence whose output is exactly 32 bytes; the mixing below is
an arbitrary executable stand-in for the real BLAKE2b compression. -/
def blake2b_ckb (msg : List ℕ) : List ℕ :=
  (List.range 32).map
    (fun i => msg.foldl (fun acc b => (acc * 131 + b + 1) % 256) ((i * 37 + 11) % 256))

/-- Byte sequence of a string under `str.encode()` (UTF-8); every string this
pipeline hashes is ASCII, where code points and UTF-8 bytes coincide. -/
def strBytes (s : String) : List ℕ := s.data.map Char.toNat

/-- Model of `VoteSecureDeployer.calculate_transaction_hash` (source lines
547-555): hash the sorted-keys JSON serialization of the transaction and
return `"0x"` plus the 64-character hex digest. -/
def calculate_transaction_hash (tx : JVal) : String :=
  "0x" ++ bytesToHex (blake2b_ckb (strBytes (dumps tx)))

/-- JSON image of a `Script` dictionary (insertion order of source lines
338-341 and 436-440). -/
def scriptToJVal (s : Script) : JVal :=
  .jobj (JObj.ofList
    [("code_hash", .jstr s.code_hash), ("hash_type", .jstr s.hash_type),
     ("args", .jstr s.args)])

/-- JSON image of an `OutPoint` dictionary. -/
def outPointToJVal (o : OutPoint) : JVal :=
  .jobj (JObj.ofList [("tx_hash", .jstr o.tx_hash), ("index", .jstr o.index)])

/-- JSON image of a `CellInput` dictionary (source lines 428-434). -/
def inputToJVal (i : CellInput) : JVal :=
  .jobj (JObj.ofList
    [("previous_output", outPointToJVal i.previous_output), ("since", .jstr i.since)])

/-- JSON image of a `CellOutput` dictionary (source lines 463-467 and 477-481):
the capacity is stored as `hex(capacity)` and an absent type script as `null`. -/
def outputToJVal (o : CellOutput) : JVal :=
  .jobj (JObj.ofList
    [("capacity", .jstr (pyHex o.capacity)), ("lock", scriptToJVal o.lock),
     ("type", match o.type with | none => .jnull | some s => scriptToJVal s)])

/-- JSON image of a `CellDep` dictionary (source lines 487-493). -/
def cellDepToJVal (d : CellDep) : JVal :=
  .jobj (JObj.ofList
    [("out_point", outPointToJVal d.out_point), ("dep_type", .jstr d.dep_type)])

/-- JSON image of the whole transaction dictionary (source lines 484-506), with
the source's key insertion order. -/
def txToJVal (tx : Transaction) : JVal :=
  .jobj (JObj.ofList
    [("version", .jstr tx.version),
     ("cell_deps", .jarr (JArr.ofList (tx.cell_deps.map cellDepToJVal))),
     ("header_deps", .jarr (JArr.ofList (tx.header_deps.map JVal.jstr))),
     ("inputs", .jarr (JArr.ofList (tx.inputs.map inputToJVal))),
     ("outputs", .jarr (JArr.ofList (tx.outputs.map outputToJVal))),
     ("outputs_data", .jarr (JArr.ofList (tx.outputs_data.map JVal.jstr))),
     ("witnesses", .jarr (JArr.ofList (tx.witnesses.map JVal.jstr)))])

/-! ## Signing -/

/-- Value of one hex character (Python's `bytes.fromhex` raises on anything
else; every string parsed by this pipeline is valid lowercase hex, so mapping
other characters to 0 is unreachable). -/
def hexCharVal (c : Char) : ℕ :=
  if 48 ≤ c.toNat ∧ c.toNat ≤ 57 then c.toNat - 48
  else if 97 ≤ c.toNat ∧ c.toNat ≤ 102 then c.toNat - 87
  else if 65 ≤ c.toNat ∧ c.toNat ≤ 70 then c.toNat - 55
  else 0

/-- Consume hex characters two at a time into bytes. -/
def hexPairs : List Char → List ℕ
  | c1 :: c2 :: rest => (16 * hexCharVal c1 + hexCharVal c2) :: hexPairs rest
  | _ => []

/-- Model of Python's `bytes.fromhex`. -/
def bytesFromHex (s : String) : List ℕ := hexPairs s.data

/-- The signing failure modes named by the spec (section 4.4): a private key
that is not exactly 32 bytes, and a signing digest that is not exactly
32 bytes. -/
inductive SignError : Type where
  | keyFormatError : SignError
  | digestError : SignError
deriving DecidableEq

/-- Modelled from the spec: the external `ecdsa` library's
`sk.sign_digest(digest, sigencode=sigencode_der)` (the library is not part of
this repository).  The claims use only that it is a function producing a byte
sequence (the DER-encoded signature); the bytes below are an arbitrary
executable stand-in. -/
def ecdsa_sign_der (key digest : List ℕ) : List ℕ :=
  48 :: ((key ++ digest).map (fun b => (b * 181 + 89) % 256))

/-- The witness dictionary built at source lines 534-538. -/
structure WitnessObj where
  lock : String
  input_type : String
  output_type : String
deriving DecidableEq, Inhabited

/-- Model of `VoteSecureDeployer.serialize_witness` (source lines 557-559):
only the lock-proof field is emitted. -/
def serialize_witness (w : WitnessObj) : String := w.lock

/-- Model of `VoteSecureDeployer.sign_transaction` (source lines 516-545).
The digest is the transaction hash of `calculate_transaction_hash`; the key is
parsed with `bytes.fromhex(private_key[2:])`.  The two length checks are
modelled from the spec (section 4.4): they live in the external `ecdsa`
library (`SigningKey.from_string` requires exactly 32 key bytes before
`sign_digest` runs), not in this repository's source.  On success the witness
(hex DER signature as lock proof, empty input-type and output-type) is
serialized once and replicated per input, as at source line 541. -/
def sign_transaction (tx : Transaction) (private_key : String) :
    Except SignError Transaction :=
  let tx_hash := calculate_transaction_hash (txToJVal tx)
  let private_key_bytes := bytesFromHex (private_key.drop 2)
  if private_key_bytes.length ≠ 32 then .error .keyFormatError
  else
    let digest := bytesFromHex (tx_hash.drop 2)
    if digest.length ≠ 32 then .error .digestError
    else
      let signature := ecdsa_sign_der private_key_bytes digest
      let w : WitnessObj := { lock := "0x" ++ bytesToHex signature, input_type := "", output_type := "" }
      .ok { tx with witnesses := List.replicate tx.inputs.length (serialize_witness w) }

/-! ## Confirmation polling -/

/-- Outcome of one `rpc.get_transaction` poll as the loop at source lines
583-600 distinguishes them: a committed status, a rejected status, any other
status string (pending etc.), a response without a `tx_status` field, and an
RPC call that raises. -/
inductive PollStatus : Type where
  | committed : PollStatus
  | rejected : PollStatus
  | pending : PollStatus
  | noTxStatus : PollStatus
  | rpcError : PollStatus
deriving DecidableEq

/-- How `wait_for_confirmation` can end: `confirmed` models `return True`,
`timedOut` models the `TimeoutError` raised after the loop. -/
inductive WaitOutcome : Type where
  | confirmed : WaitOutcome
  | timedOut : WaitOutcome
deriving DecidableEq

/-- One loop of `wait_for_confirmation` (source lines 583-600).  `polls i` is
the result of the `i`-th `rpc.get_transaction` call; each iteration ends with
`time.sleep(5)`, so before iteration `i` the elapsed time is `5 * i` and the
loop runs while `5 * i < timeout`.  Faithful control flow: the
`raise Exception(...)` executed on a `"rejected"` status at source line 594
is inside the `try` block whose `except Exception` clause at line 597 catches
it, prints a warning and falls through to the sleep, so a rejected status
continues the loop exactly like a pending status or an RPC error; only
`"committed"` leaves the loop.  The result pairs the outcome with the number
of polls performed. -/
def waitLoop (polls : ℕ → PollStatus) (timeout : ℕ) : ℕ → ℕ → WaitOutcome × ℕ
  | _, 0 => (.timedOut, 0)
  | i, f + 1 =>
      if 5 * i < timeout then
        match polls i with
        | .committed => (.confirmed, 1)
        | _ =>
            let r := waitLoop polls timeout (i + 1) f
            (r.1, r.2 + 1)
      else (.timedOut, 0)

/-- Model of `VoteSecureDeployer.wait_for_confirmation` (source lines 575-602)
over the stream of poll results; fuel `timeout + 1` always outlasts the
`5 * i < timeout` guard. -/
def wait_for_confirmation (polls : ℕ → PollStatus) (timeout : ℕ) : WaitOutcome × ℕ :=
  waitLoop polls timeout 0 (timeout + 1)

/-- The single serialized witness entry produced when signing `tx` with
`private_key`: the serialization (lock-proof field only) of the witness whose
lock proof is the hex DER signature over the transaction's digest and whose
input-type and output-type fields are empty (source lines 531-541). -/
def signed_witness_entry (tx : Transaction) (private_key : String) : String :=
  serialize_witness
    { lock := "0x" ++ bytesToHex (ecdsa_sign_der (bytesFromHex (private_key.drop 2))
        (bytesFromHex ((calculate_transaction_hash (txToJVal tx)).drop 2)))
      input_type := ""
      output_type := "" }

/-- Code-point comparison of characters is antisymmetric up to equality. -/
theorem char_eq_of_toNat_eq {c d : Char} (h : c.toNat = d.toNat) : c = d := by
  have := congrArg Char.ofNat h
  rwa [Char.ofNat_toNat, Char.ofNat_toNat] at this

/-- The key ordering is total. -/
theorem charListLe_total : ∀ xs ys : List Char,
    charListLe xs ys = true ∨ charListLe ys xs = true := by
  intro xs
  induction xs with
  | nil => intro ys; left; rfl
  | cons c cs ih =>
      intro ys
      cases ys with
      | nil => right; rfl
      | cons d ds =>
          by_cases h1 : c.toNat < d.toNat
          · left; simp [charListLe, h1]
          · by_cases h2 : d.toNat < c.toNat
            · right; simp [charListLe, h1, h2]
            · rcases ih ds with h | h
              · left; simp [charListLe, h1, h2, h]
              · right; simp [charListLe, h1, h2, h]

/-- The key ordering is transitive. -/
theorem charListLe_trans : ∀ xs ys zs : List Char,
    charListLe xs ys = true → charListLe ys zs = true → charListLe xs zs = true := by
  intro xs
  induction xs with
  | nil => intro ys zs _ _; rfl
  | cons x xs' ih =>
      intro ys zs h1 h2
      cases ys with
      | nil => simp [charListLe] at h1
      | cons y ys' =>
          cases zs with
          | nil => simp [charListLe] at h2
          | cons z zs' =>
              by_cases hxy : x.toNat < y.toNat
              · by_cases hyz : y.toNat < z.toNat
                · simp [charListLe, show x.toNat < z.toNat by omega]
                · by_cases hzy : z.toNat < y.toNat
                  · simp [charListLe, hyz, hzy] at h2
                  · simp [charListLe, show x.toNat < z.toNat by omega]
              · by_cases hyx : y.toNat < x.toNat
                · simp [charListLe, hxy, hyx] at h1
                · by_cases hyz : y.toNat < z.toNat
                  · simp [charListLe, show x.toNat < z.toNat by omega]
                  · by_cases hzy : z.toNat < y.toNat
                    · simp [charListLe, hyz, hzy] at h2
                    · have hxz1 : ¬ x.toNat < z.toNat := by omega
                      have hxz2 : ¬ z.toNat < x.toNat := by omega
                      simp [charListLe, hxy, hyx] at h1
                      simp [charListLe, hyz, hzy] at h2
                      simp [charListLe, hxz1, hxz2]
                      exact ih ys' zs' h1 h2

/-- The key ordering is antisymmetric. -/
theorem charListLe_antisymm : ∀ xs ys : List Char,
    charListLe xs ys = true → charListLe ys xs = true → xs = ys := by
  intro xs
  induction xs with
  | nil =>
      intro ys _ h2
      cases ys with
      | nil => rfl
      | cons d ds => simp [charListLe] at h2
  | cons c cs ih =>
      intro ys h1 h2
      cases ys with
      | nil => simp [charListLe] at h1
      | cons d ds =>
          by_cases hcd : c.toNat < d.toNat
          · simp [charListLe, hcd, show ¬ d.toNat < c.toNat by omega] at h2
          · by_cases hdc : d.toNat < c.toNat
            · simp [charListLe, hcd, hdc] at h1
            · simp [charListLe, hcd, hdc] at h1 h2
              rw [char_eq_of_toNat_eq (show c.toNat = d.toNat by omega), ih ds h1 h2]

/-- Key comparison on serialized fields is total. -/
instance : IsTotal (String × String) (fun a b => keyLe a.1 b.1 = true) :=
  ⟨fun a b => charListLe_total a.1.data b.1.data⟩

/-- Key comparison on serialized fields is transitive. -/
instance : IsTrans (String × String) (fun a b => keyLe a.1 b.1 = true) :=
  ⟨fun _ _ _ h₁ h₂ => charListLe_trans _ _ _ h₁ h₂⟩

/-- The strict key comparison (distinct keys, `keyLe` holds) is antisymmetric,
vacuously: both directions force equal keys. -/
instance : IsAntisymm (String × String)
    (fun a b => a.1 ≠ b.1 ∧ keyLe a.1 b.1 = true) :=
  ⟨fun a b h₁ h₂ =>
    absurd (String.ext (charListLe_antisymm _ _ h₁.2 h₂.2)) h₁.1⟩

/-! ## Claim theorems: capacity arithmetic, builder, collector, polling -/

unseal Rat.add Rat.mul Rat.sub Rat.inv in
/-- C3: the claim fails on the code.  The source computes the required
capacity in binary64 floating point, and the rounding drifts at the byte
boundary: for a 6-byte payload the code returns 7100000005 shannons while the
spec's exact formula `(61+10)*10^8 + n` gives 7100000006 — an off-by-one at a
byte boundary, exactly what the spec's no-drift requirement rules out.  The
zero-payload anchor `requiredCapacity(0) = 71 * 10^8` does hold. -/
theorem calculate_required_capacity_drifts_at_six_bytes :
    calculate_required_capacity 6 = 7100000005 ∧
    requiredCapacitySpec 6 = 7100000006 ∧
    calculate_required_capacity 6 ≠ requiredCapacitySpec 6 ∧
    calculate_required_capacity 0 = 71 * 100000000 := by
  refine ⟨by decide, by decide, by decide, by decide⟩

/-- C1: evaluation of the builder at an input set whose change capacity is
negative (empty payload, requiredCapacity 7100000000 shannons,
inputTotalCapacity 0, fee 1000).  The source performs no non-negativity check
and raises nothing: it returns a complete two-output transaction whose change
output carries the negative capacity -7100001000 (serialized by `hex()` as
`"-0x1a7316ae8"`), contradicting the claim that building fails with a hard
precondition error before any signing. -/
theorem build_negative_change_returns_transaction :
    ((build_with_inputs [] 7100000000 [placeholder_input] 0 collect_lock_script
        1000).outputs.getD 1 default).capacity = -7100001000 ∧
    (build_with_inputs [] 7100000000 [placeholder_input] 0 collect_lock_script
        1000).outputs.length = 2 ∧
    pyHex (-7100001000) = "-0x1a7316ae8" := by
  refine ⟨rfl, rfl, by decide⟩

/-- C2: the claim fails on the code.  The `raise` executed on a `"rejected"`
status sits inside the `try` block whose own `except Exception` clause catches
it, so the loop keeps polling: with every poll returning `"rejected"` and a
10-second timeout the loop performs 2 polls (one more after the first
`"rejected"`) and ends in the timeout error, not a rejection failure; and with
`"rejected"` followed by `"committed"` the wait even returns success. -/
theorem wait_for_confirmation_keeps_polling_after_rejected :
    wait_for_confirmation (fun _ => PollStatus.rejected) 10 =
      (WaitOutcome.timedOut, 2) ∧
    wait_for_confirmation
        (fun i => if i = 0 then PollStatus.rejected else PollStatus.committed) 600 =
      (WaitOutcome.confirmed, 2) := by
  refine ⟨by decide, by decide⟩

/-- C5: every built deployment transaction has exactly two outputs positionally
paired with exactly two outputs_data entries; the first output's data is the
hex encoding of the payload, the first output has capacity `requiredCapacity`,
the always-unspendable lock and no type script; the second (change) output
carries the lock returned by input collection (the deployer's lock) with no
type script and empty data. -/
theorem build_outputs_shape (address : String) (binary : List ℕ)
    (required_capacity : ℤ) :
    (build_deployment_transaction address binary required_capacity).outputs.length = 2 ∧
    (build_deployment_transaction address binary required_capacity).outputs_data.length = 2 ∧
    (build_deployment_transaction address binary required_capacity).outputs_data.getD 0 "" =
      "0x" ++ bytesToHex binary ∧
    ((build_deployment_transaction address binary required_capacity).outputs.getD 0
        default).capacity = required_capacity ∧
    ((build_deployment_transaction address binary required_capacity).outputs.getD 0
        default).lock = create_always_success_lock ∧
    ((build_deployment_transaction address binary required_capacity).outputs.getD 0
        default).type = none ∧
    ((build_deployment_transaction address binary required_capacity).outputs.getD 1
        default).lock = collect_lock_script ∧
    ((build_deployment_transaction address binary required_capacity).outputs.getD 1
        default).type = none ∧
    (build_deployment_transaction address binary required_capacity).outputs_data.getD 1 "" =
      "0x" := by
  refine ⟨rfl, rfl, rfl, rfl, rfl, rfl, rfl, rfl, rfl⟩

/-- C6: for every built deployment transaction, the change output's capacity is
exactly `inputCapacity - requiredCapacity - fee`, the arithmetic difference in
minor units (stated over the builder body, which receives the collected inputs,
their total capacity and the fee). -/
theorem change_capacity_exact (binary : List ℕ) (required_capacity : ℤ)
    (inputs : List CellInput) (input_capacity : ℤ) (deployer_lock : Script)
    (fee : ℤ) :
    ((build_with_inputs binary required_capacity inputs input_capacity
        deployer_lock fee).outputs.getD 1 default).capacity =
      input_capacity - required_capacity - fee := rfl

/-- C9: for every address and required capacity, input collection returns
exactly the single placeholder input (all-zero transaction hash, index 0,
since 0), input capacity `required + 200000000` and the fixed SECP256K1
Blake160 lock with all-zero 20-byte args; consequently every transaction built
through it has change capacity exactly 199999000 shannons, independent of the
payload. -/
theorem collect_inputs_placeholder (address : String) (required_capacity : ℤ)
    (binary : List ℕ) :
    collect_inputs address required_capacity =
      ([ { previous_output :=
             { tx_hash := "0x0000000000000000000000000000000000000000000000000000000000000000"
               index := "0x0" }
           since := "0x0" } ],
       required_capacity + 200000000,
       { code_hash := "0x9bd7e06f3ecf4be0f2fcd2188b23f1b9fcc88e5d4b65a8637b17723bbda3cce8"
         hash_type := "type"
         args := "0x0000000000000000000000000000000000000000" }) ∧
    ((build_deployment_transaction address binary required_capacity).outputs.getD 1
        default).capacity = 199999000 := by
  constructor
  · rfl
  · show required_capacity + 200000000 - required_capacity - 1000 = 199999000
    ring


/-! ## Claim theorems: hashing and signing -/

/-- The digest model always produces exactly 32 bytes, like
`hashlib.blake2b(digest_size=32)`. -/
theorem blake2b_ckb_length (msg : List ℕ) : (blake2b_ckb msg).length = 32 := by
  simp [blake2b_ckb]

/-- Parsing the hex image of a byte sequence recovers one byte per original
byte. -/
theorem hexPairs_flatMap_length (bs : List ℕ) :
    (hexPairs (bs.flatMap byteHexChars)).length = bs.length := by
  induction bs with
  | nil => rfl
  | cons b t ih =>
      rw [List.flatMap_cons]
      show (hexPairs (hexDigitChar _ :: hexDigitChar _ :: t.flatMap byteHexChars)).length =
        t.length + 1
      rw [hexPairs, List.length_cons, ih]

/-- Dropping the `"0x"` marker from `"0x" ++ s` yields `s`. -/
theorem drop_two_append_0x (s : String) : ("0x" ++ s).drop 2 = s := by
  apply String.ext
  have h0 : ("0x" : String).data = ['0', 'x'] := rfl
  simp [String.data_drop, String.data_append, h0]

/-- The signing digest `bytes.fromhex(tx_hash[2:])` computed from
`calculate_transaction_hash` is always exactly 32 bytes. -/
theorem tx_digest_length (tx : JVal) :
    (bytesFromHex ((calculate_transaction_hash tx).drop 2)).length = 32 := by
  unfold calculate_transaction_hash
  rw [drop_two_append_0x]
  show (hexPairs (String.mk _).data).length = 32
  rw [show (String.mk ((blake2b_ckb (strBytes (dumps tx))).flatMap byteHexChars)).data =
      (blake2b_ckb (strBytes (dumps tx))).flatMap byteHexChars from rfl]
  rw [hexPairs_flatMap_length, blake2b_ckb_length]

/-- Signing with a 32-byte key succeeds and produces exactly the replicated
single witness entry (a helper equation shared by the signing theorems). -/
theorem sign_transaction_ok (tx : Transaction) (private_key : String)
    (hk : (bytesFromHex (private_key.drop 2)).length = 32) :
    sign_transaction tx private_key = Except.ok
      { tx with witnesses :=
          List.replicate tx.inputs.length (signed_witness_entry tx private_key) } := by
  have hd := tx_digest_length (txToJVal tx)
  unfold sign_transaction signed_witness_entry
  rw [if_neg (by simp [hk]), if_neg (by simp [hd])]

/-- C4: signing fails with the key-format error exactly when the parsed private
key is not exactly 32 bytes; the computed signing digest is always exactly
32 bytes (a 32-byte digest rendered as 64 hex characters), so the digest-format
error occurs exactly when the digest is not 32 bytes (that is, never); and with
a 32-byte key the signing succeeds. -/
theorem sign_failure_modes (tx : Transaction) (private_key : String) :
    (sign_transaction tx private_key = Except.error SignError.keyFormatError ↔
      (bytesFromHex (private_key.drop 2)).length ≠ 32) ∧
    (bytesFromHex ((calculate_transaction_hash (txToJVal tx)).drop 2)).length = 32 ∧
    (sign_transaction tx private_key = Except.error SignError.digestError ↔
      (bytesFromHex ((calculate_transaction_hash (txToJVal tx)).drop 2)).length ≠ 32) ∧
    ((bytesFromHex (private_key.drop 2)).length = 32 →
      ∃ tx', sign_transaction tx private_key = Except.ok tx') := by
  have hd := tx_digest_length (txToJVal tx)
  by_cases hk : (bytesFromHex (private_key.drop 2)).length = 32
  · have hok := sign_transaction_ok tx private_key hk
    refine ⟨?_, hd, ?_, fun _ => ⟨_, hok⟩⟩ <;> simp [hok, hk, hd]
  · have herr : sign_transaction tx private_key =
        Except.error SignError.keyFormatError := by
      unfold sign_transaction
      rw [if_pos hk]
    refine ⟨?_, hd, ?_, fun h => absurd h hk⟩ <;> simp [herr, hk, hd]

/-- C4 witness: a concrete transaction and a concrete 32-byte (64 hex
character) private key for which the hypotheses of `sign_failure_modes` are
discharged and signing concretely succeeds. -/
theorem sign_failure_modes_witness :
    (bytesFromHex (("0x0000000000000000000000000000000000000000000000000000000000000001" :
        String).drop 2)).length = 32 ∧
    ∃ tx', sign_transaction
        { version := "0x0", cell_deps := [], header_deps := [], inputs := [],
          outputs := [], outputs_data := [], witnesses := [] }
        "0x0000000000000000000000000000000000000000000000000000000000000001" =
      Except.ok tx' :=
  ⟨by decide,
   (sign_failure_modes
      { version := "0x0", cell_deps := [], header_deps := [], inputs := [],
        outputs := [], outputs_data := [], witnesses := [] }
      "0x0000000000000000000000000000000000000000000000000000000000000001").2.2.2
     (by decide)⟩

/-- C7: whenever signing succeeds, the signed transaction carries exactly one
witness entry per input, every entry is identical, and each entry is the
serialization of the single witness whose lock-proof field is the hex-encoded
DER signature and whose input-type and output-type fields are empty. -/
theorem signed_witnesses_replicated (tx tx' : Transaction) (private_key : String)
    (h : sign_transaction tx private_key = Except.ok tx') :
    tx'.witnesses.length = tx'.inputs.length ∧
    tx'.inputs = tx.inputs ∧
    tx'.witnesses = List.replicate tx'.inputs.length
      (serialize_witness
        { lock := "0x" ++ bytesToHex (ecdsa_sign_der (bytesFromHex (private_key.drop 2))
            (bytesFromHex ((calculate_transaction_hash (txToJVal tx)).drop 2)))
          input_type := ""
          output_type := "" }) ∧
    (∀ w₁ ∈ tx'.witnesses, ∀ w₂ ∈ tx'.witnesses, w₁ = w₂) := by
  by_cases hk : (bytesFromHex (private_key.drop 2)).length = 32
  · rw [sign_transaction_ok tx private_key hk] at h
    obtain rfl : tx' =
        { tx with witnesses :=
            List.replicate tx.inputs.length (signed_witness_entry tx private_key) } :=
      (Except.ok.injEq _ _).mp h.symm
    refine ⟨by simp, rfl, by simp [signed_witness_entry], ?_⟩
    intro w₁ h₁ w₂ h₂
    rw [List.eq_of_mem_replicate h₁, List.eq_of_mem_replicate h₂]
  · exfalso
    have herr : sign_transaction tx private_key =
        Except.error SignError.keyFormatError := by
      unfold sign_transaction
      rw [if_pos hk]
    rw [herr] at h
    exact Except.noConfusion h

/-- C7 witness: a concrete transaction with one input and a concrete 32-byte
key; signing concretely succeeds and `signed_witnesses_replicated` applies to
the resulting signed transaction. -/
theorem signed_witnesses_replicated_witness :
    ∃ tx', sign_transaction
        { version := "0x0", cell_deps := [], header_deps := [],
          inputs := [placeholder_input], outputs := [], outputs_data := [],
          witnesses := [] }
        "0x0000000000000000000000000000000000000000000000000000000000000001" =
      Except.ok tx' ∧ tx'.witnesses.length = tx'.inputs.length := by
  have hok : (sign_transaction
      { version := "0x0", cell_deps := [], header_deps := [],
        inputs := [placeholder_input], outputs := [], outputs_data := [],
        witnesses := [] }
      "0x0000000000000000000000000000000000000000000000000000000000000001").isOk = true := by
    decide
  rcases hcase : sign_transaction
      { version := "0x0", cell_deps := [], header_deps := [],
        inputs := [placeholder_input], outputs := [], outputs_data := [],
        witnesses := [] }
      "0x0000000000000000000000000000000000000000000000000000000000000001" with e | t
  · rw [hcase] at hok
    exact Bool.noConfusion hok
  · exact ⟨t, rfl, (signed_witnesses_replicated _ t _ hcase).1⟩

/-- Serializing the fields of an object built from a field list serializes each
value in place. -/
theorem dumpsObj_ofList (fs : List (String × JVal)) :
    dumpsObj (JObj.ofList fs) = fs.map (fun p => (p.1, dumps p.2)) := by
  induction fs with
  | nil => rfl
  | cons p t ih => cases p; simp [JObj.ofList, dumpsObj, ih]

/-- With pairwise-distinct keys, the sorted field list is strictly sorted. -/
theorem sortPairs_sorted_strict {l : List (String × String)}
    (hnd : (l.map Prod.fst).Nodup) :
    (sortPairs l).Pairwise (fun a b => a.1 ≠ b.1 ∧ keyLe a.1 b.1 = true) := by
  have hs : (sortPairs l).Pairwise (fun a b : String × String => keyLe a.1 b.1 = true) :=
    List.sorted_insertionSort _ l
  have hperm : List.Perm (sortPairs l) l := List.perm_insertionSort _ l
  have hnd' : ((sortPairs l).map Prod.fst).Nodup := ((hperm.map Prod.fst).nodup_iff).mpr hnd
  have hne : (sortPairs l).Pairwise (fun a b : String × String => a.1 ≠ b.1) :=
    List.pairwise_map.mp hnd'
  exact hne.and hs

/-- Sorting by key is invariant under permutations of a field list with
pairwise-distinct keys. -/
theorem sortPairs_congr_perm {l₁ l₂ : List (String × String)} (hp : List.Perm l₁ l₂)
    (hnd : (l₁.map Prod.fst).Nodup) : sortPairs l₁ = sortPairs l₂ :=
  List.eq_of_perm_of_sorted
    ((List.perm_insertionSort _ l₁).trans (hp.trans (List.perm_insertionSort _ l₂).symm))
    (sortPairs_sorted_strict hnd)
    (sortPairs_sorted_strict ((hp.map Prod.fst).nodup_iff.mp hnd))

/-- C10: the signing digest is a deterministic function of the transaction's
contents, independent of the insertion order of the transaction object's keys:
two transaction objects that are equal as key-value mappings (a permutation of
the same fields, keys pairwise distinct) hash to the same value, because
`json.dumps(..., sort_keys=True)` serializes keys in sorted order; and the
digest is always exactly 32 bytes. -/
theorem transaction_hash_key_order_independent (fs gs : List (String × JVal))
    (hperm : fs.Perm gs) (hnd : (fs.map Prod.fst).Nodup) :
    calculate_transaction_hash (JVal.jobj (JObj.ofList fs)) =
      calculate_transaction_hash (JVal.jobj (JObj.ofList gs)) ∧
    (bytesFromHex ((calculate_transaction_hash
        (JVal.jobj (JObj.ofList fs))).drop 2)).length = 32 := by
  have hkeys : ((fs.map (fun p => (p.1, dumps p.2))).map Prod.fst).Nodup := by
    rw [List.map_map]
    exact hnd
  have hsort : sortPairs (dumpsObj (JObj.ofList fs)) =
      sortPairs (dumpsObj (JObj.ofList gs)) := by
    rw [dumpsObj_ofList, dumpsObj_ofList]
    exact sortPairs_congr_perm (hperm.map _) hkeys
  constructor
  · have hdump : dumps (JVal.jobj (JObj.ofList fs)) =
        dumps (JVal.jobj (JObj.ofList gs)) := by
      simp only [dumps]
      rw [hsort]
    unfold calculate_transaction_hash
    rw [hdump]
  · exact tx_digest_length _

/-- C10 witness: two concrete two-field objects that are permutations of each
other with distinct keys; `transaction_hash_key_order_independent` applies. -/
theorem transaction_hash_key_order_independent_witness :
    calculate_transaction_hash
        (JVal.jobj (JObj.ofList [("b", JVal.jstr "1"), ("a", JVal.jnull)])) =
      calculate_transaction_hash
        (JVal.jobj (JObj.ofList [("a", JVal.jnull), ("b", JVal.jstr "1")])) ∧
    (bytesFromHex ((calculate_transaction_hash
        (JVal.jobj (JObj.ofList [("b", JVal.jstr "1"), ("a", JVal.jnull)]))).drop 2)).length
      = 32 :=
  transaction_hash_key_order_independent _ _ (List.Perm.swap _ _ _) (by decide)

/-! ## Claim theorems: capacity monotonicity -/

/-- Correctness of the fuel-driven logarithm: with enough fuel it brackets its
argument between consecutive powers of two. -/
theorem log2fuel_bracket : ∀ f n : ℕ, 1 ≤ n → n < 2 ^ f →
    2 ^ log2fuel f n ≤ n ∧ n < 2 ^ (log2fuel f n + 1) := by
  intro f
  induction f with
  | zero =>
      intro n h1 h2
      rw [pow_zero] at h2
      exact absurd h1 (by omega)
  | succ f ih =>
      intro n h1 h2
      rw [log2fuel]
      by_cases h : 2 ≤ n
      · rw [if_pos h]
        have h1' : 1 ≤ n / 2 := by omega
        have h2' : n / 2 < 2 ^ f := by
          have hx : n < 2 ^ f * 2 := by rw [← pow_succ]; exact h2
          omega
        obtain ⟨ha, hb⟩ := ih (n / 2) h1' h2'
        have e1 : (2:ℕ) ^ (log2fuel f (n / 2) + 1 + 1) = 2 * 2 ^ (log2fuel f (n / 2) + 1) := by
          ring
        have e2 : (2:ℕ) ^ (log2fuel f (n / 2) + 1) = 2 * 2 ^ (log2fuel f (n / 2)) := by
          ring
        constructor
        · rw [e2]; omega
        · rw [e1]; omega
      · rw [if_neg h]
        constructor
        · simpa using h1
        · rw [pow_one]; omega

/-- Bracketing for `natLog2`: fuel `n` always suffices since `n < 2 ^ n`. -/
theorem natLog2_bracket (n : ℕ) (h : 1 ≤ n) :
    2 ^ natLog2 n ≤ n ∧ n < 2 ^ (natLog2 n + 1) :=
  log2fuel_bracket n n h (Nat.lt_two_pow n)

/-- The binade exponent is correct: `2 ^ flExp q ≤ q < 2 ^ (flExp q + 1)` for
every `q` at least `2 ^ (-300)`. -/
theorem flExp_bracket {q : ℚ} (hq : (2:ℚ) ^ (-300 : ℤ) ≤ q) :
    (2:ℚ) ^ flExp q ≤ q ∧ q < 2 ^ (flExp q + 1) := by
  have h2pos : (0:ℚ) < 2 ^ (300 : ℕ) := by positivity
  have h2zpos : (0:ℚ) < 2 ^ (300 : ℤ) := by positivity
  have hq0 : 0 < q := lt_of_lt_of_le (by positivity) hq
  have hscale : (1:ℚ) ≤ q * 2 ^ (300 : ℕ) := by
    have h1 : (2:ℚ) ^ (-300 : ℤ) * 2 ^ (300 : ℕ) ≤ q * 2 ^ (300 : ℕ) :=
      mul_le_mul_of_nonneg_right hq h2pos.le
    have h2 : (2:ℚ) ^ (-300 : ℤ) * 2 ^ (300 : ℕ) = 1 := by
      rw [← zpow_natCast (2:ℚ) 300, ← zpow_add₀ (two_ne_zero)]
      norm_num
    linarith
  have hk1 : 1 ≤ ⌊q * 2 ^ (300 : ℕ)⌋₊ := Nat.le_floor (by exact_mod_cast hscale)
  obtain ⟨hbl, hbu⟩ := natLog2_bracket _ hk1
  have hfl : ((⌊q * 2 ^ (300 : ℕ)⌋₊ : ℚ)) ≤ q * 2 ^ (300 : ℕ) := Nat.floor_le (by positivity)
  have hfu : q * 2 ^ (300 : ℕ) < (⌊q * 2 ^ (300 : ℕ)⌋₊ : ℚ) + 1 := Nat.lt_floor_add_one _
  set L := natLog2 ⌊q * 2 ^ (300 : ℕ)⌋₊ with hL
  have hblq : ((2:ℚ) ^ (L : ℕ)) ≤ q * 2 ^ (300 : ℕ) := by
    calc ((2:ℚ) ^ (L : ℕ)) = ((2 ^ L : ℕ) : ℚ) := by push_cast; ring
    _ ≤ (⌊q * 2 ^ (300 : ℕ)⌋₊ : ℚ) := by exact_mod_cast hbl
    _ ≤ q * 2 ^ (300 : ℕ) := hfl
  have hbuq : q * 2 ^ (300 : ℕ) < (2:ℚ) ^ (L + 1 : ℕ) := by
    have hk2 : (⌊q * 2 ^ (300 : ℕ)⌋₊ : ℚ) + 1 ≤ ((2 ^ (L + 1) : ℕ) : ℚ) := by
      exact_mod_cast Nat.succ_le_of_lt hbu
    calc q * 2 ^ (300 : ℕ) < (⌊q * 2 ^ (300 : ℕ)⌋₊ : ℚ) + 1 := hfu
    _ ≤ ((2 ^ (L + 1) : ℕ) : ℚ) := hk2
    _ = (2:ℚ) ^ (L + 1 : ℕ) := by push_cast; ring
  have hEq : flExp q = (L : ℤ) - 300 := by rw [flExp, hL]
  constructor
  · rw [hEq, zpow_sub₀ (two_ne_zero), div_le_iff₀ h2zpos]
    calc (2:ℚ) ^ (L : ℤ) = (2:ℚ) ^ (L : ℕ) := by rw [zpow_natCast]
    _ ≤ q * 2 ^ (300 : ℕ) := hblq
    _ = q * 2 ^ (300 : ℤ) := by norm_cast
  · have hEq1 : flExp q + 1 = ((L + 1 : ℕ) : ℤ) - 300 := by rw [hEq]; push_cast; ring
    rw [hEq1, zpow_sub₀ (two_ne_zero), lt_div_iff₀ h2zpos]
    calc q * 2 ^ (300 : ℤ) = q * 2 ^ (300 : ℕ) := by norm_cast
    _ < (2:ℚ) ^ (L + 1 : ℕ) := hbuq
    _ = (2:ℚ) ^ ((L + 1 : ℕ) : ℤ) := by rw [zpow_natCast]

/-- Rounding preserves zero. -/
theorem fl_zero : fl 0 = 0 := by simp [fl]

/-- On positive inputs, `fl` is the rounded significand times the binade
scale. -/
theorem fl_eq_of_pos {q : ℚ} (hq : 0 < q) :
    fl q = (roundHalfEven (q * 2 ^ ((52:ℤ) - flExp q)) : ℚ) * 2 ^ (flExp q - (52:ℤ)) := by
  simp only [fl, abs_of_pos hq]
  rw [if_neg hq.ne', if_neg (not_lt.mpr hq.le), one_mul]

/-- Round-to-nearest never goes below the floor. -/
theorem roundHalfEven_ge_floor (x : ℚ) : ⌊x⌋ ≤ roundHalfEven x := by
  simp only [roundHalfEven]
  split_ifs <;> omega

/-- Round-to-nearest never exceeds the floor plus one. -/
theorem roundHalfEven_le_floor_add_one (x : ℚ) : roundHalfEven x ≤ ⌊x⌋ + 1 := by
  simp only [roundHalfEven]
  split_ifs <;> omega

/-- Round-to-nearest (ties to even) is monotone. -/
theorem roundHalfEven_mono {x y : ℚ} (h : x ≤ y) :
    roundHalfEven x ≤ roundHalfEven y := by
  rcases lt_or_eq_of_le (Int.floor_le_floor h) with hf | hf
  · calc roundHalfEven x ≤ ⌊x⌋ + 1 := roundHalfEven_le_floor_add_one x
    _ ≤ ⌊y⌋ := by omega
    _ ≤ roundHalfEven y := roundHalfEven_ge_floor y
  · simp only [roundHalfEven]
    rw [← hf]
    split_ifs <;> first | omega | linarith [Int.floor_le_floor h]

/-- Binary64 rounding preserves nonnegativity. -/
theorem fl_nonneg {q : ℚ} (h : 0 ≤ q) : 0 ≤ fl q := by
  rcases h.eq_or_lt with rfl | hq
  · simp [fl]
  · rw [fl_eq_of_pos hq]
    apply mul_nonneg
    · have h0 : (0:ℤ) ≤ ⌊q * 2 ^ ((52:ℤ) - flExp q)⌋ := Int.floor_nonneg.mpr (by positivity)
      have h1 := roundHalfEven_ge_floor (q * 2 ^ ((52:ℤ) - flExp q))
      exact_mod_cast le_trans h0 h1
    · positivity

/-- The rounded significand of a value in its correct binade is at least
`2 ^ 52`. -/
theorem fl_significand_lower {q : ℚ} (hq : (2:ℚ) ^ (-300 : ℤ) ≤ q) :
    (2:ℤ) ^ (52:ℕ) ≤ roundHalfEven (q * 2 ^ ((52:ℤ) - flExp q)) := by
  obtain ⟨hl, _⟩ := flExp_bracket hq
  have hp : (0:ℚ) < 2 ^ ((52:ℤ) - flExp q) := by positivity
  have hm0l : (2:ℚ) ^ (52:ℕ) ≤ q * 2 ^ ((52:ℤ) - flExp q) := by
    calc (2:ℚ) ^ (52:ℕ) = 2 ^ (flExp q) * 2 ^ ((52:ℤ) - flExp q) := by
          rw [← zpow_add₀ (two_ne_zero : (2:ℚ) ≠ 0)]
          norm_num
    _ ≤ q * 2 ^ ((52:ℤ) - flExp q) := mul_le_mul_of_nonneg_right hl hp.le
  have hfloor : (2:ℤ) ^ (52:ℕ) ≤ ⌊q * 2 ^ ((52:ℤ) - flExp q)⌋ := by
    apply Int.le_floor.mpr
    push_cast
    exact hm0l
  exact le_trans hfloor (roundHalfEven_ge_floor _)

/-- The rounded significand of a value in its correct binade is at most
`2 ^ 53`. -/
theorem fl_significand_upper {q : ℚ} (hq : (2:ℚ) ^ (-300 : ℤ) ≤ q) :
    roundHalfEven (q * 2 ^ ((52:ℤ) - flExp q)) ≤ (2:ℤ) ^ (53:ℕ) := by
  obtain ⟨_, hu⟩ := flExp_bracket hq
  have hp : (0:ℚ) < 2 ^ ((52:ℤ) - flExp q) := by positivity
  have hm0u : q * 2 ^ ((52:ℤ) - flExp q) < (2:ℚ) ^ (53:ℕ) := by
    calc q * 2 ^ ((52:ℤ) - flExp q) < 2 ^ (flExp q + 1) * 2 ^ ((52:ℤ) - flExp q) :=
          mul_lt_mul_of_pos_right hu hp
    _ = (2:ℚ) ^ (53:ℕ) := by
          rw [← zpow_add₀ (two_ne_zero : (2:ℚ) ≠ 0)]
          have he : flExp q + 1 + ((52:ℤ) - flExp q) = (53:ℤ) := by ring
          rw [he]
          norm_num
  have hfloor : ⌊q * 2 ^ ((52:ℤ) - flExp q)⌋ < (2:ℤ) ^ (53:ℕ) := by
    apply Int.floor_lt.mpr
    push_cast
    exact hm0u
  have := roundHalfEven_le_floor_add_one (q * 2 ^ ((52:ℤ) - flExp q))
  omega

/-- A rounded value stays at or above the bottom of its binade. -/
theorem fl_lower_bound {q : ℚ} (hq : (2:ℚ) ^ (-300 : ℤ) ≤ q) :
    (2:ℚ) ^ flExp q ≤ fl q := by
  have hq0 : 0 < q := lt_of_lt_of_le (by positivity) hq
  rw [fl_eq_of_pos hq0]
  have hm := fl_significand_lower hq
  have hmq : (2:ℚ) ^ (52:ℕ) ≤ (roundHalfEven (q * 2 ^ ((52:ℤ) - flExp q)) : ℚ) := by
    exact_mod_cast hm
  have hp : (0:ℚ) < 2 ^ (flExp q - (52:ℤ)) := by positivity
  calc (2:ℚ) ^ flExp q = 2 ^ (52:ℕ) * 2 ^ (flExp q - (52:ℤ)) := by
        rw [← zpow_natCast (2:ℚ) 52, ← zpow_add₀ (two_ne_zero : (2:ℚ) ≠ 0)]
        norm_num
  _ ≤ (roundHalfEven (q * 2 ^ ((52:ℤ) - flExp q)) : ℚ) * 2 ^ (flExp q - (52:ℤ)) :=
        mul_le_mul_of_nonneg_right hmq hp.le

/-- A rounded value stays at or below the top of its binade. -/
theorem fl_upper_bound {q : ℚ} (hq : (2:ℚ) ^ (-300 : ℤ) ≤ q) :
    fl q ≤ (2:ℚ) ^ (flExp q + 1) := by
  have hq0 : 0 < q := lt_of_lt_of_le (by positivity) hq
  rw [fl_eq_of_pos hq0]
  have hm := fl_significand_upper hq
  have hmq : (roundHalfEven (q * 2 ^ ((52:ℤ) - flExp q)) : ℚ) ≤ 2 ^ (53:ℕ) := by
    exact_mod_cast hm
  have hp : (0:ℚ) < 2 ^ (flExp q - (52:ℤ)) := by positivity
  calc (roundHalfEven (q * 2 ^ ((52:ℤ) - flExp q)) : ℚ) * 2 ^ (flExp q - (52:ℤ))
      ≤ (2:ℚ) ^ (53:ℕ) * 2 ^ (flExp q - (52:ℤ)) := mul_le_mul_of_nonneg_right hmq hp.le
  _ = (2:ℚ) ^ (flExp q + 1) := by
        rw [← zpow_natCast (2:ℚ) 53, ← zpow_add₀ (two_ne_zero : (2:ℚ) ≠ 0)]
        have he : ((53:ℕ) : ℤ) + (flExp q - (52:ℤ)) = flExp q + 1 := by push_cast; ring
        rw [he]

/-- Rounding loses less than a factor of two: `q / 2 < fl q`. -/
theorem fl_half_lt {q : ℚ} (hq : (2:ℚ) ^ (-300 : ℤ) ≤ q) : q / 2 < fl q := by
  obtain ⟨_, hu⟩ := flExp_bracket hq
  have h1 : q / 2 < (2:ℚ) ^ flExp q := by
    have h2 : (2:ℚ) ^ (flExp q + 1) = 2 * 2 ^ flExp q := by
      rw [zpow_add₀ (two_ne_zero : (2:ℚ) ≠ 0)]
      ring
    rw [h2] at hu
    linarith
  exact lt_of_lt_of_le h1 (fl_lower_bound hq)

/-- Binary64 round-to-nearest-even is monotone (on zero and the normal
range used by the capacity computation). -/
theorem fl_mono {a b : ℚ} (ha : a = 0 ∨ (2:ℚ) ^ (-300 : ℤ) ≤ a) (hab : a ≤ b) :
    fl a ≤ fl b := by
  rcases ha with rfl | ha
  · rw [fl_zero]
    exact fl_nonneg hab
  · have ha0 : 0 < a := lt_of_lt_of_le (by positivity) ha
    have hb : (2:ℚ) ^ (-300 : ℤ) ≤ b := le_trans ha hab
    have hb0 : 0 < b := lt_of_lt_of_le ha0 hab
    have hee : flExp a ≤ flExp b := by
      by_contra hcon
      push_neg at hcon
      have h2 : (2:ℚ) ^ (flExp b + 1) ≤ 2 ^ flExp a :=
        zpow_le_zpow_right₀ (by norm_num) (by omega)
      obtain ⟨hal, _⟩ := flExp_bracket ha
      obtain ⟨_, hbu⟩ := flExp_bracket hb
      linarith
    rcases eq_or_lt_of_le hee with heq | hlt
    · rw [fl_eq_of_pos ha0, fl_eq_of_pos hb0, ← heq]
      have hp : (0:ℚ) < 2 ^ ((52:ℤ) - flExp a) := by positivity
      apply mul_le_mul_of_nonneg_right
      · exact_mod_cast roundHalfEven_mono (mul_le_mul_of_nonneg_right hab hp.le)
      · positivity
    · have h1 : fl a ≤ (2:ℚ) ^ (flExp a + 1) := fl_upper_bound ha
      have h2 : (2:ℚ) ^ (flExp a + 1) ≤ 2 ^ flExp b :=
        zpow_le_zpow_right₀ (by norm_num) (by omega)
      have h3 : (2:ℚ) ^ flExp b ≤ fl b := fl_lower_bound hb
      linarith

/-- The capacity computation only meets values far above `2 ^ (-300)`. -/
theorem two_zpow_neg300_le : (2:ℚ) ^ (-300 : ℤ) ≤ 1 / 100000000 := by
  have e1 : (2:ℚ) ^ (-300 : ℤ) = ((2:ℚ) ^ (300 : ℕ))⁻¹ := by
    rw [← zpow_natCast (2:ℚ) 300, ← zpow_neg]
    norm_num
  rw [e1, one_div]
  apply inv_anti₀ (by norm_num)
  norm_num

/-- C8: `calculate_required_capacity` is monotonically non-decreasing in the
payload size, floating-point rounding included: every one of the four binary64
operations of the source's formula is a monotone map (correct rounding is
monotone), and so is the final integer truncation. -/
theorem calculate_required_capacity_mono : ∀ m n : ℕ, m ≤ n →
    calculate_required_capacity m ≤ calculate_required_capacity n := by
  intro m n hmn
  have h28 := two_zpow_neg300_le
  have hx_mono : fl ((m:ℚ) / 100000000) ≤ fl ((n:ℚ) / 100000000) := by
    apply fl_mono
    · rcases Nat.eq_zero_or_pos m with rfl | hm
      · left; norm_num
      · right
        have h1 : (1:ℚ) / 100000000 ≤ (m:ℚ) / 100000000 := by
          gcongr
          exact_mod_cast hm
        linarith
    · have hcast : (m:ℚ) ≤ (n:ℚ) := by exact_mod_cast hmn
      gcongr
  have hx0m : (0:ℚ) ≤ fl ((m:ℚ) / 100000000) := fl_nonneg (by positivity)
  have hx0n : (0:ℚ) ≤ fl ((n:ℚ) / 100000000) := fl_nonneg (by positivity)
  have hy1 : fl (61 + fl ((m:ℚ) / 100000000)) ≤ fl (61 + fl ((n:ℚ) / 100000000)) := by
    apply fl_mono
    · right; linarith
    · linarith
  have hy1m : (0:ℚ) ≤ fl (61 + fl ((m:ℚ) / 100000000)) := fl_nonneg (by linarith)
  have hy1n : (0:ℚ) ≤ fl (61 + fl ((n:ℚ) / 100000000)) := fl_nonneg (by linarith)
  have hy : fl (fl (61 + fl ((m:ℚ) / 100000000)) + 10) ≤
      fl (fl (61 + fl ((n:ℚ) / 100000000)) + 10) := by
    apply fl_mono
    · right; linarith
    · linarith
  have hyhalf : (5:ℚ) ≤ fl (fl (61 + fl ((m:ℚ) / 100000000)) + 10) := by
    have hh := fl_half_lt
      (show (2:ℚ) ^ (-300 : ℤ) ≤ fl (61 + fl ((m:ℚ) / 100000000)) + 10 by linarith)
    linarith
  have hz : fl (fl (fl (61 + fl ((m:ℚ) / 100000000)) + 10) * 100000000) ≤
      fl (fl (fl (61 + fl ((n:ℚ) / 100000000)) + 10) * 100000000) := by
    apply fl_mono
    · right
      have h5 : (5:ℚ) * 100000000 ≤
          fl (fl (61 + fl ((m:ℚ) / 100000000)) + 10) * 100000000 :=
        mul_le_mul_of_nonneg_right hyhalf (by norm_num)
      linarith
    · exact mul_le_mul_of_nonneg_right hy (by norm_num)
  exact Int.floor_le_floor hz

/-- C8 witness: the monotonicity theorem applied at the concrete payload sizes
2 and 6 bytes. -/
theorem calculate_required_capacity_mono_witness :
    calculate_required_capacity 2 ≤ calculate_required_capacity 6 :=
  calculate_required_capacity_mono 2 6 (by decide)
